import Mathlib

/-!
Shallow embedding of `src/MQTT_Door_Controller.ino`.

Messages, stored credentials and hash digests are byte strings, modelled as
`List Nat` (one entry per 8-bit character). EEPROM is a byte-addressed memory
`Nat → Nat` together with a counter of physical write operations. The single
MQTT callback becomes a pure function from (random stream, topic, message,
device state) to (new device state, published payloads, actuator invocations).
-/

/-! ### Constants from the preprocessor directives -/

def EEPROM_SIZE : Nat := 256

def MAX_STRING_LENGTH : Nat := 64

def FLAG_ADDRESS : Nat := EEPROM_SIZE - 1

def INIT_FLAG : Nat := 0x2D

def SEED : Nat := 5381

def PRIME : Nat := 7919

/-- The modulus of the C `uint64_t` arithmetic used in the hash loop. -/
def U64 : Nat := 2 ^ 64

/-! ### Byte strings -/

abbrev Bytes := List Nat

/-- The byte string of an ASCII literal. -/
def strBytes (s : String) : Bytes := s.data.map Char.toNat

/-- Arduino `String::charAt` / `operator[]`: the byte at index `i`, or `0`
when the index is out of range. -/
def charAt (m : Bytes) (i : Nat) : Nat := m.getD i 0

/-! ### Topics -/

def topicCommands : Bytes := strBytes "commands"

def topicValidationRequests : Bytes := strBytes "validation/requests"

def topicValidationResponses : Bytes := strBytes "validation/responses"

/-! ### Decimal rendering (`String(number)` in the sketch) -/

/-- Fuel-indexed digit extraction: prepends the decimal digits of `n` to
`acc`.  The fuel argument dominates the number of digits. -/
def decStrAux : Nat → Nat → Bytes → Bytes
  | 0, _, acc => acc
  | fuel + 1, n, acc =>
    if n < 10 then (48 + n) :: acc
    else decStrAux fuel (n / 10) ((48 + n % 10) :: acc)

/-- ASCII decimal rendering of a natural number, as `String(uint64_t)`. -/
def decStr (n : Nat) : Bytes := decStrAux (n + 1) n []

/-- ASCII decimal rendering of a C `int`, as `String(int)`. -/
def intDecStr (i : Int) : Bytes :=
  if i < 0 then 45 :: decStr i.natAbs else decStr i.natAbs

/-! ### EEPROM (`initEEPROM`, `getSavedString`, `setSavedString`) -/

/-- EEPROM contents plus a count of physical `EEPROM.write` operations. -/
structure EEPROMState where
  mem : Nat → Nat
  writes : Nat

/-- `initEEPROM`: if the marker byte differs from `INIT_FLAG`, zero-fill the
whole region, then write the marker; otherwise do nothing. -/
def initEEPROM (e : EEPROMState) : EEPROMState :=
  if e.mem FLAG_ADDRESS ≠ INIT_FLAG then
    { mem := fun a =>
        if a = FLAG_ADDRESS then INIT_FLAG
        else if a < EEPROM_SIZE then 0 else e.mem a,
      writes := e.writes + (EEPROM_SIZE + 1) }
  else e

/-- The read loop of `getSavedString`: read up to `k` bytes starting at
address `a`, stopping at the first `'\0'`; the result is the C-string value
placed into the output buffer. -/
def getLoop (mem : Nat → Nat) : Nat → Nat → Bytes
  | _, 0 => []
  | a, k + 1 => if mem a = 0 then [] else mem a :: getLoop mem (a + 1) k

def getSavedString (e : EEPROMState) (start : Nat) : Bytes :=
  getLoop e.mem start MAX_STRING_LENGTH

/-- The write loop of `setSavedString`: write the bytes of the C string
`value` (terminator included) starting at address `a`, breaking after the
terminator is written or after `k` iterations, whichever comes first.
Returns the new memory and the number of bytes physically written.  The
`value : Bytes` holds the characters before the implicit `'\0'`. -/
def setLoop (a : Nat) (value : Bytes) (mem : Nat → Nat) : Nat → (Nat → Nat) × Nat
  | 0 => (mem, 0)
  | k + 1 =>
    match value with
    | [] => (fun x => if x = a then 0 else mem x, 1)
    | b :: rest =>
      if b = 0 then (fun x => if x = a then 0 else mem x, 1)
      else
        let r := setLoop (a + 1) rest (fun x => if x = a then b else mem x) k
        (r.1, r.2 + 1)

def setSavedString (e : EEPROMState) (start : Nat) (value : Bytes) : EEPROMState :=
  let r := setLoop start value e.mem MAX_STRING_LENGTH
  { mem := r.1, writes := e.writes + r.2 }

/-- The boot-time completeness check of `setup` (line 195 / line 239):
`strlen(mqttServer) == 0 || strlen(mqttUser) == 0 || strlen(mqttUser) == 0`. -/
def anyParamNotSet (mqttServer mqttUser mqttPassword : Bytes) : Bool :=
  (mqttServer.length == 0) || (mqttUser.length == 0) || (mqttUser.length == 0)

/-- The spec's derived check `isComplete()`: true iff all three credential
slots are non-empty.  Stated from the spec's words, for comparison with the
code's `anyParamNotSet`. -/
def isComplete (mqttServer mqttUser mqttPassword : Bytes) : Prop :=
  mqttServer ≠ [] ∧ mqttUser ≠ [] ∧ mqttPassword ≠ []

instance (s u p : Bytes) : Decidable (isComplete s u p) := by
  unfold isComplete; infer_instance

/-! ### Challenge generator (`generateRandomString`, `djb2Modified`) -/

/-- `generateRandomString`: eight characters `'A' + random(0, 26)`.  The
stream `rnd` supplies the raw values of the `random` calls; `random(0, 26)`
yields a value in `[0, 26)`, modelled as `rnd i % 26`. -/
def generateRandomString (rnd : Nat → Nat) : Bytes :=
  (List.range 8).map (fun i => 65 + rnd i % 26)

/-- The numeric value computed by `djb2Modified`: `uint64_t` fold
`hash = hash * 33 + c` from `SEED`, then `hash %= PRIME`. -/
def djb2Val (input : Bytes) : Nat :=
  (input.foldl (fun h c => (h * 33 + c) % U64) SEED) % PRIME

/-- `djb2Modified`: the hash value rendered as a decimal string. -/
def djb2Modified (input : Bytes) : Bytes := decStr (djb2Val input)

/-- The digest computation as the spec words it: exact fold `h := h*33 + b`
from `SEED` (no machine-width reduction), to be compared with `djb2Val`. -/
def specFold (input : Bytes) : Nat :=
  input.foldl (fun h b => h * 33 + b) SEED

/-! ### Command authorizer (`mqttCallback`, `executeCommand`) -/

/-- One physical actuation (`lock()` / `unlock()`). -/
inductive Act where
  | lock : Act
  | unlock : Act
deriving DecidableEq, Repr

/-- The mutable globals `lastCommand`, `lastHash`, `userNumber`. -/
structure LockState where
  lastCommand : Bytes
  lastHash : Bytes
  userNumber : Int
deriving DecidableEq, Repr

/-- The globals at boot: `lastCommand = ""`, `lastHash = ""`,
`userNumber = -1`. -/
def bootState : LockState :=
  { lastCommand := strBytes "", lastHash := strBytes "", userNumber := -1 }

/-- `executeCommand`: actuate according to the stored `lastCommand`;
anything other than `"unlock"` / `"lock"` actuates nothing. -/
def executeCommand (lastCommand : Bytes) : List Act :=
  if lastCommand = strBytes "unlock" then [Act.unlock]
  else if lastCommand = strBytes "lock" then [Act.lock]
  else []

/-- The actuation a command word denotes (`"unlock"` releases, `"lock"`
engages). -/
def actOf (c : Bytes) : Act :=
  if c = strBytes "unlock" then Act.unlock else Act.lock

/-- Result of one `mqttCallback` invocation: the new globals, the payloads
published to `validation/requests`, and the actuator invocations. -/
structure StepOut where
  state : LockState
  published : List Bytes
  acts : List Act
deriving DecidableEq, Repr

/-- `mqttCallback`, faithfully: on the command topic, a message of length
`> 1` whose first byte is an ASCII digit sets `userNumber`; if the remainder
is `"unlock"` or `"lock"` it also sets `lastCommand`, draws a nonce, stores
its digest in `lastHash` and publishes `String(userNumber) + nonce`.  On the
response topic, the actuator runs iff the first byte equals
`userNumber + '0'` and the remainder equals `lastHash`; the globals are not
modified. -/
def mqttCallback (rnd : Nat → Nat) (topic message : Bytes) (s : LockState) : StepOut :=
  if topic = topicCommands then
    if 1 < message.length ∧ (48 ≤ charAt message 0 ∧ charAt message 0 ≤ 57) then
      let userNumber : Int := (charAt message 0 : Int) - 48
      let command := message.drop 1
      if command = strBytes "unlock" ∨ command = strBytes "lock" then
        let randomString := generateRandomString rnd
        let lastHash := djb2Modified randomString
        let payload := intDecStr userNumber ++ randomString
        { state := { lastCommand := command, lastHash := lastHash, userNumber := userNumber },
          published := [payload], acts := [] }
      else
        { state := { s with userNumber := userNumber }, published := [], acts := [] }
    else
      { state := s, published := [], acts := [] }
  else if topic = topicValidationResponses then
    if (charAt message 0 : Int) = s.userNumber + 48 ∧ message.drop 1 = s.lastHash then
      { state := s, published := [], acts := executeCommand s.lastCommand }
    else
      { state := s, published := [], acts := [] }
  else
    { state := s, published := [], acts := [] }

/-! ### Helper lemmas -/

theorem decStr_lt_ten (n : Nat) (h : n < 10) : decStr n = [48 + n] := by
  unfold decStr
  simp [decStrAux, h]

theorem intDecStr_ofNat (u : Nat) (h : u ≤ 9) : intDecStr (u : Int) = [48 + u] := by
  unfold intDecStr
  rw [if_neg (by omega), Int.natAbs_ofNat]
  exact decStr_lt_ten u (by omega)

/-- Processing a well-formed command message `<digit u><"lock"|"unlock">`
replaces the whole pending state and publishes `<digit u><nonce>`. -/
theorem command_step (rnd : Nat → Nat) (s : LockState) (u : Nat) (c : Bytes)
    (hu : u ≤ 9) (hc : c = strBytes "unlock" ∨ c = strBytes "lock") :
    mqttCallback rnd topicCommands ((48 + u) :: c) s =
      { state := { lastCommand := c,
                   lastHash := djb2Modified (generateRandomString rnd),
                   userNumber := (u : Int) },
        published := [(48 + u) :: generateRandomString rnd], acts := [] } := by
  have hlen : 1 < ((48 + u) :: c).length := by
    rcases hc with h | h <;> subst h <;> simp [strBytes]
  have hch : charAt ((48 + u) :: c) 0 = 48 + u := rfl
  have hcond : 1 < ((48 + u) :: c).length ∧
      (48 ≤ charAt ((48 + u) :: c) 0 ∧ charAt ((48 + u) :: c) 0 ≤ 57) :=
    ⟨hlen, by rw [hch]; omega, by rw [hch]; omega⟩
  have hcast : ((charAt ((48 + u) :: c) 0 : Nat) : Int) - 48 = (u : Int) := by
    rw [hch]; push_cast; ring
  have hc' : ((48 + u) :: c).drop 1 = strBytes "unlock" ∨
      ((48 + u) :: c).drop 1 = strBytes "lock" := by simpa using hc
  unfold mqttCallback
  rw [if_pos rfl, if_pos hcond, if_pos hc']
  simp only [hcast, List.drop_succ_cons, List.drop_zero]
  rw [intDecStr_ofNat u hu]
  rfl

/-- Processing any message on the response topic leaves the globals
unchanged and actuates exactly when the first byte and remainder match
`userNumber` and `lastHash`. -/
theorem response_step (rnd : Nat → Nat) (msg : Bytes) (s : LockState) :
    mqttCallback rnd topicValidationResponses msg s =
      { state := s, published := [],
        acts := if (charAt msg 0 : Int) = s.userNumber + 48 ∧ msg.drop 1 = s.lastHash
                then executeCommand s.lastCommand else [] } := by
  unfold mqttCallback
  rw [if_neg (by decide), if_pos rfl]
  split
  · rfl
  · rfl

/-- The exact djb2 fold never decreases its accumulator. -/
theorem exactFold_ge (l : Bytes) : ∀ a : Nat, a ≤ l.foldl (fun x b => x * 33 + b) a := by
  induction l with
  | nil => intro a; simp
  | cons b t ih =>
    intro a
    simp only [List.foldl_cons]
    have h1 : a ≤ a * 33 + b := by omega
    exact le_trans h1 (ih (a * 33 + b))

/-- While the exact fold stays below `2^64`, the `uint64_t` fold agrees
with it. -/
theorem modFold_eq_exactFold (l : Bytes) :
    ∀ a : Nat, l.foldl (fun x b => x * 33 + b) a < U64 →
    l.foldl (fun x c => (x * 33 + c) % U64) a = l.foldl (fun x b => x * 33 + b) a := by
  induction l with
  | nil => intro a _; simp
  | cons b t ih =>
    intro a hbound
    simp only [List.foldl_cons] at hbound ⊢
    have h1 : a * 33 + b ≤ t.foldl (fun x b => x * 33 + b) (a * 33 + b) :=
      exactFold_ge t (a * 33 + b)
    have h2 : a * 33 + b < U64 := lt_of_le_of_lt h1 hbound
    rw [Nat.mod_eq_of_lt h2]
    exact ih (a * 33 + b) hbound

/-- Size bound on the exact fold for byte inputs. -/
theorem exactFold_bound (l : Bytes) :
    ∀ a : Nat, (∀ b ∈ l, b ≤ 255) →
    l.foldl (fun x b => x * 33 + b) a ≤ 33 ^ l.length * (a + 255) := by
  induction l with
  | nil =>
    intro a _
    simp only [List.foldl_nil, List.length_nil, pow_zero, one_mul]
    omega
  | cons b t ih =>
    intro a hb
    simp only [List.foldl_cons, List.length_cons]
    have hb0 : b ≤ 255 := hb b (by simp)
    have h1 := ih (a * 33 + b) (fun x hx => hb x (by simp [hx]))
    have h2 : 33 ^ t.length * (a * 33 + b + 255) ≤ 33 ^ t.length * (33 * (a + 255)) := by
      apply Nat.mul_le_mul_left
      omega
    have h3 : 33 ^ t.length * (33 * (a + 255)) = 33 ^ (t.length + 1) * (a + 255) := by
      ring
    omega

/-! ### EEPROM loop lemmas -/

/-- `setLoop` touches only the addresses `a, a+1, …, a+k-1`. -/
theorem setLoop_out (k : Nat) :
    ∀ (v : Bytes) (mem : Nat → Nat) (a x : Nat), x < a ∨ a + k ≤ x →
    ((setLoop a v mem k).1) x = mem x := by
  induction k with
  | zero => intro v mem a x _; rfl
  | succ k ih =>
    intro v mem a x hx
    have hxa : x ≠ a := by omega
    match v with
    | [] => simp only [setLoop, if_neg hxa]
    | b :: rest =>
      by_cases hb : b = 0
      · simp only [setLoop, if_pos hb, if_neg hxa]
      · simp only [setLoop, if_neg hb]
        rw [ih rest _ (a + 1) x (by omega)]
        simp only [if_neg hxa]

/-- Round trip: a terminator-free value short enough to fit is read back
exactly. -/
theorem getLoop_setLoop (v : Bytes) :
    ∀ (mem : Nat → Nat) (a k : Nat), (∀ b ∈ v, b ≠ 0) → v.length < k →
    getLoop ((setLoop a v mem k).1) a k = v := by
  induction v with
  | nil =>
    intro mem a k _ hk
    match k, hk with
    | k + 1, _ => simp [setLoop, getLoop]
  | cons b rest ih =>
    intro mem a k hv hk
    have hb : b ≠ 0 := hv b (by simp)
    match k, hk with
    | k + 1, hk =>
      simp only [setLoop, if_neg hb]
      have hmem : ((setLoop (a + 1) rest (fun x => if x = a then b else mem x) k).1) a
          = b := by
        rw [setLoop_out k rest _ (a + 1) a (by omega)]
        simp
      simp only [getLoop, hmem, if_neg hb]
      congr 1
      exact ih _ (a + 1) k (fun x hx => hv x (by simp [hx])) (by simpa using hk)

/-- Truncation: when the fuel runs out before the value ends, exactly the
first `k` bytes are read back. -/
theorem getLoop_setLoop_trunc (k : Nat) :
    ∀ (v : Bytes) (mem : Nat → Nat) (a : Nat), (∀ b ∈ v, b ≠ 0) → k ≤ v.length →
    getLoop ((setLoop a v mem k).1) a k = v.take k := by
  induction k with
  | zero => intro v mem a _ _; rfl
  | succ k ih =>
    intro v mem a hv hk
    match v, hk with
    | b :: rest, hk =>
      have hb : b ≠ 0 := hv b (by simp)
      simp only [setLoop, if_neg hb]
      have hmem : ((setLoop (a + 1) rest (fun x => if x = a then b else mem x) k).1) a
          = b := by
        rw [setLoop_out k rest _ (a + 1) a (by omega)]
        simp
      simp only [getLoop, hmem, if_neg hb, List.take_succ_cons]
      congr 1
      exact ih rest _ (a + 1) (fun x hx => hv x (by simp [hx])) (by simpa using hk)

/-- `initEEPROM` does nothing when the marker is already in place. -/
theorem initEEPROM_noop (e : EEPROMState) (h : e.mem FLAG_ADDRESS = INIT_FLAG) :
    initEEPROM e = e := by
  unfold initEEPROM
  rw [if_neg (not_not_intro h)]

/-! ### Claim theorems -/

/-- C6: for every valid nonce (8 characters in `'A'..'Z'`), `djb2Modified`
equals the decimal rendering of the exact fold `h := h*33 + b` from
`SEED = 5381` reduced mod `PRIME = 7919`, and its numeric value lies in
`[0, PRIME)`. -/
theorem djb2Modified_matches_specFold (n : Bytes) (hlen : n.length = 8)
    (halpha : ∀ b ∈ n, 65 ≤ b ∧ b ≤ 90) :
    djb2Modified n = decStr (specFold n % PRIME) ∧ djb2Val n < PRIME := by
  have h255 : ∀ b ∈ n, b ≤ 255 := fun b hb => le_trans (halpha b hb).2 (by norm_num)
  have hb := exactFold_bound n SEED h255
  rw [hlen] at hb
  have hsmall : n.foldl (fun x b => x * 33 + b) SEED < U64 :=
    lt_of_le_of_lt hb (by norm_num [SEED, U64])
  have key := modFold_eq_exactFold n SEED hsmall
  constructor
  · unfold djb2Modified djb2Val specFold
    rw [key]
  · unfold djb2Val
    exact Nat.mod_lt _ (by norm_num [PRIME])

/-- C6 witness: the nonce `"AAAAAAAA"`. -/
theorem djb2Modified_matches_specFold_witness :
    djb2Modified (List.replicate 8 65) = decStr (specFold (List.replicate 8 65) % PRIME) ∧
    djb2Val (List.replicate 8 65) < PRIME :=
  djb2Modified_matches_specFold (List.replicate 8 65) (by decide) (by decide)

/-- C7 (amended): a terminator-free value of length `≤ 63` round-trips
exactly; a value of length `≥ 64` is stored truncated to its first 64 bytes
with **no** terminator written (no byte outside the 64-byte window is
touched), and reading returns the 64-byte truncation because the read stops
at the bound. -/
theorem setSavedString_roundtrip (e : EEPROMState) (start : Nat) (v : Bytes)
    (hv : ∀ b ∈ v, b ≠ 0) :
    (v.length ≤ MAX_STRING_LENGTH - 1 →
      getSavedString (setSavedString e start v) start = v) ∧
    (MAX_STRING_LENGTH ≤ v.length →
      getSavedString (setSavedString e start v) start = v.take MAX_STRING_LENGTH) ∧
    (∀ x, x < start ∨ start + MAX_STRING_LENGTH ≤ x →
      (setSavedString e start v).mem x = e.mem x) := by
  refine ⟨?_, ?_, ?_⟩
  · intro h
    exact getLoop_setLoop v e.mem start MAX_STRING_LENGTH hv
      (by simp only [MAX_STRING_LENGTH] at h ⊢; omega)
  · intro h
    exact getLoop_setLoop_trunc MAX_STRING_LENGTH v e.mem start hv h
  · intro x hx
    exact setLoop_out MAX_STRING_LENGTH v e.mem start x hx

/-- C7 witness: writing `"pw1"` into a dirty store reads back `"pw1"`. -/
theorem setSavedString_roundtrip_witness :
    getSavedString (setSavedString ⟨fun _ => 5, 0⟩ 0 (strBytes "pw1")) 0 = strBytes "pw1" :=
  (setSavedString_roundtrip ⟨fun _ => 5, 0⟩ 0 (strBytes "pw1") (by decide)).1 (by decide)

/-- C7 counterexample: writing a 64-character value into a store previously
holding nonzero bytes leaves no terminator after the truncated value — the
last byte of the slot is the 64th character and the following byte keeps its
old nonzero content, contradicting "truncated to the bound followed by a
terminator". -/
theorem setSavedString_no_terminator :
    ¬(((setSavedString ⟨fun _ => 1, 0⟩ 0 (List.replicate 64 65)).mem 63 = 0) ∨
      ((setSavedString ⟨fun _ => 1, 0⟩ 0 (List.replicate 64 65)).mem 64 = 0)) := by
  decide

/-- C8: starting from storage whose marker differs from the sentinel, the
first `initEEPROM` zero-fills the region and writes the marker (257 physical
writes); a second call finds the marker and performs no write, returning the
state unchanged. -/
theorem initEEPROM_idempotent (e : EEPROMState) (h : e.mem FLAG_ADDRESS ≠ INIT_FLAG) :
    (∀ a, a < EEPROM_SIZE →
      (initEEPROM e).mem a = if a = FLAG_ADDRESS then INIT_FLAG else 0) ∧
    (initEEPROM e).writes = e.writes + (EEPROM_SIZE + 1) ∧
    initEEPROM (initEEPROM e) = initEEPROM e := by
  refine ⟨?_, ?_, ?_⟩
  · intro a ha
    unfold initEEPROM
    rw [if_pos h]
    by_cases hfa : a = FLAG_ADDRESS
    · simp [hfa]
    · simp [hfa, ha]
  · unfold initEEPROM
    rw [if_pos h]
  · refine initEEPROM_noop _ ?_
    unfold initEEPROM
    rw [if_pos h]
    simp

/-- C8 witness: blank storage (all zero bytes). -/
theorem initEEPROM_idempotent_witness :
    initEEPROM (initEEPROM ⟨fun _ => 0, 0⟩) = initEEPROM ⟨fun _ => 0, 0⟩ :=
  (initEEPROM_idempotent ⟨fun _ => 0, 0⟩ (by decide)).2.2

/-- C3 (code bug): the boot-time completeness check tests `mqttUser` twice
and never tests `mqttPassword`; with a non-empty server and user but an
empty password it reports "all set" (`false`) although the credentials are
incomplete, so the core proceeds to transport setup. -/
theorem completeness_check_ignores_password :
    (∀ srv usr pw pw' : Bytes, anyParamNotSet srv usr pw = anyParamNotSet srv usr pw') ∧
    anyParamNotSet (strBytes "broker.local") (strBytes "door") (strBytes "") = false ∧
    ¬isComplete (strBytes "broker.local") (strBytes "door") (strBytes "") := by
  refine ⟨fun _ _ _ _ => rfl, by decide, by decide⟩

/-- The state after a well-formed command, as a projection of
`command_step`. -/
theorem command_state_eq (rnd : Nat → Nat) (s : LockState) (u : Nat) (c : Bytes)
    (hu : u ≤ 9) (hc : c = strBytes "unlock" ∨ c = strBytes "lock") :
    (mqttCallback rnd topicCommands ((48 + u) :: c) s).state =
      { lastCommand := c, lastHash := djb2Modified (generateRandomString rnd),
        userNumber := (u : Int) } := by
  rw [command_step rnd s u c hu hc]

/-- The actuations of a response, as a projection of `response_step`. -/
theorem response_acts (rnd : Nat → Nat) (msg : Bytes) (s : LockState) :
    (mqttCallback rnd topicValidationResponses msg s).acts =
      if (charAt msg 0 : Int) = s.userNumber + 48 ∧ msg.drop 1 = s.lastHash
      then executeCommand s.lastCommand else [] := by
  rw [response_step]

/-- A response failing the user/digest comparison actuates nothing. -/
theorem response_no_match (rnd : Nat → Nat) (msg : Bytes) (s : LockState)
    (h : ¬((charAt msg 0 : Int) = s.userNumber + 48 ∧ msg.drop 1 = s.lastHash)) :
    (mqttCallback rnd topicValidationResponses msg s).acts = [] := by
  rw [response_acts, if_neg h]

/-- C1 (amended): processing a validation response — matched or not — does
**not** clear the pending state: the globals are returned unchanged, so
processing the identical response a second time produces the identical
result (in particular the actuator fires again on a replayed match). -/
theorem response_never_clears (rnd rnd' : Nat → Nat) (msg : Bytes) (s : LockState) :
    (mqttCallback rnd topicValidationResponses msg s).state = s ∧
    mqttCallback rnd' topicValidationResponses msg
        (mqttCallback rnd topicValidationResponses msg s).state
      = mqttCallback rnd topicValidationResponses msg s := by
  constructor
  · rw [response_step]
  · rw [response_step rnd msg s]
    show mqttCallback rnd' topicValidationResponses msg s = _
    rw [response_step rnd' msg s]

/-- C1 counterexample: after command `"1lock"`, the matching response
actuates the lock; sending the identical copy of that response again
actuates it a second time instead of yielding
`Rejected(NoOutstandingChallenge)`. -/
theorem replay_actuates_again :
    (mqttCallback (fun _ => 0) topicValidationResponses
        (49 :: djb2Modified (generateRandomString (fun _ => 0)))
        (mqttCallback (fun _ => 0) topicCommands (strBytes "1lock") bootState).state).acts
      = [Act.lock] ∧
    (mqttCallback (fun _ => 0) topicValidationResponses
        (49 :: djb2Modified (generateRandomString (fun _ => 0)))
        (mqttCallback (fun _ => 0) topicValidationResponses
            (49 :: djb2Modified (generateRandomString (fun _ => 0)))
            (mqttCallback (fun _ => 0) topicCommands (strBytes "1lock") bootState).state).state).acts
      = [Act.lock] := by
  decide

/-- C2: with the pending challenge created by command `<digit u><c>`, a
non-empty response actuates `c` exactly once iff its first byte is the digit
of `u` and its remainder equals the expected digest; otherwise nothing is
actuated. -/
theorem matched_response_executes (rnd rnd' : Nat → Nat) (s0 : LockState)
    (u : Nat) (c resp : Bytes) (hu : u ≤ 9)
    (hc : c = strBytes "unlock" ∨ c = strBytes "lock") (hresp : resp ≠ []) :
    ((mqttCallback rnd' topicValidationResponses resp
        (mqttCallback rnd topicCommands ((48 + u) :: c) s0).state).acts = [actOf c]
      ↔ charAt resp 0 = 48 + u ∧
          resp.drop 1 = djb2Modified (generateRandomString rnd)) ∧
    ((mqttCallback rnd' topicValidationResponses resp
        (mqttCallback rnd topicCommands ((48 + u) :: c) s0).state).acts = [actOf c] ∨
      (mqttCallback rnd' topicValidationResponses resp
        (mqttCallback rnd topicCommands ((48 + u) :: c) s0).state).acts = []) := by
  rw [command_state_eq rnd s0 u c hu hc, response_acts]
  have hPQ : ((charAt resp 0 : Int) = (u : Int) + 48) ↔ charAt resp 0 = 48 + u := by
    omega
  have hexec : executeCommand c = [actOf c] := by
    rcases hc with h | h <;> subst h <;> decide
  by_cases hP : (charAt resp 0 : Int) =
      ({ lastCommand := c, lastHash := djb2Modified (generateRandomString rnd),
         userNumber := (u : Int) } : LockState).userNumber + 48 ∧
      resp.drop 1 =
      ({ lastCommand := c, lastHash := djb2Modified (generateRandomString rnd),
         userNumber := (u : Int) } : LockState).lastHash
  · rw [if_pos hP]
    obtain ⟨hP1, hP2⟩ := hP
    have hP1' : (charAt resp 0 : Int) = (u : Int) + 48 := hP1
    have hP2' : resp.drop 1 = djb2Modified (generateRandomString rnd) := hP2
    rw [hexec]
    exact ⟨⟨fun _ => ⟨hPQ.mp hP1', hP2'⟩, fun _ => rfl⟩, Or.inl rfl⟩
  · rw [if_neg hP]
    refine ⟨⟨fun habs => absurd habs (by simp), fun hq => absurd ?_ hP⟩, Or.inr rfl⟩
    exact ⟨hPQ.mpr hq.1, hq.2⟩

/-- C2 witness: user 1, command `"lock"`, the correct response. -/
theorem matched_response_executes_witness :
    (mqttCallback (fun _ => 0) topicValidationResponses
        (49 :: djb2Modified (generateRandomString (fun _ => 0)))
        (mqttCallback (fun _ => 0) topicCommands ((48 + 1) :: strBytes "lock")
          bootState).state).acts = [actOf (strBytes "lock")]
      ↔ charAt (49 :: djb2Modified (generateRandomString (fun _ => 0))) 0 = 48 + 1 ∧
        (49 :: djb2Modified (generateRandomString (fun _ => 0))).drop 1
          = djb2Modified (generateRandomString (fun _ => 0)) :=
  (matched_response_executes (fun _ => 0) (fun _ => 0) bootState 1 (strBytes "lock")
    (49 :: djb2Modified (generateRandomString (fun _ => 0)))
    (by decide) (Or.inr rfl) (by decide)).1

/-- C4 (amended): a command message of length `< 2` or with a non-digit
first byte changes nothing and publishes nothing; but a message whose first
byte **is** a digit and whose remainder is an unrecognized word still
overwrites the stored issuing-user number (the code assigns `userNumber`
before checking the command word), while `lastCommand`, `lastHash` stay
unchanged and nothing is published. -/
theorem malformed_command_state (rnd : Nat → Nat) (s : LockState) (m : Bytes) :
    (¬(1 < m.length ∧ (48 ≤ charAt m 0 ∧ charAt m 0 ≤ 57)) →
      mqttCallback rnd topicCommands m s = { state := s, published := [], acts := [] }) ∧
    ((1 < m.length ∧ (48 ≤ charAt m 0 ∧ charAt m 0 ≤ 57)) →
      ¬(m.drop 1 = strBytes "unlock" ∨ m.drop 1 = strBytes "lock") →
      mqttCallback rnd topicCommands m s =
        { state := { lastCommand := s.lastCommand, lastHash := s.lastHash,
                     userNumber := (charAt m 0 : Int) - 48 },
          published := [], acts := [] }) := by
  constructor
  · intro h
    unfold mqttCallback
    rw [if_pos rfl, if_neg h]
  · intro h1 h2
    unfold mqttCallback
    rw [if_pos rfl, if_pos h1, if_neg h2]

/-- C4 counterexample: the digit-led message `"1frob"` has an unrecognized
command word, yet it mutates the pending state: the stored issuing-user
number changes from its boot value `-1` to `1`. -/
theorem malformed_updates_user :
    (mqttCallback (fun _ => 0) topicCommands (strBytes "1frob") bootState).state
      ≠ bootState ∧
    (mqttCallback (fun _ => 0) topicCommands (strBytes "1frob") bootState).state.userNumber
      = 1 := by
  decide

/-- C4 witness: `"1frob"` from the boot state. -/
theorem malformed_command_state_witness :
    mqttCallback (fun _ => 0) topicCommands (strBytes "1frob") bootState =
      { state := { lastCommand := bootState.lastCommand, lastHash := bootState.lastHash,
                   userNumber := (charAt (strBytes "1frob") 0 : Int) - 48 },
        published := [], acts := [] } :=
  (malformed_command_state (fun _ => 0) bootState (strBytes "1frob")).2
    (by decide) (by decide)

/-- C5 (amended): a second well-formed command request invalidates the
first challenge **provided** the new challenge differs from the old in user
or digest: the late response carrying the first challenge's user digit and
digest is then rejected against the newer challenge with no actuation.
(When the second challenge has the same user and a colliding digest, the
late response matches the newer challenge and executes.) -/
theorem superseded_challenge_rejected (rnd1 rnd2 rnd3 : Nat → Nat) (s0 : LockState)
    (u1 u2 : Nat) (c1 c2 : Bytes) (hu1 : u1 ≤ 9) (hu2 : u2 ≤ 9)
    (hc1 : c1 = strBytes "unlock" ∨ c1 = strBytes "lock")
    (hc2 : c2 = strBytes "unlock" ∨ c2 = strBytes "lock")
    (hdiff : ¬(u1 = u2 ∧ djb2Modified (generateRandomString rnd1)
        = djb2Modified (generateRandomString rnd2))) :
    (mqttCallback rnd3 topicValidationResponses
        ((48 + u1) :: djb2Modified (generateRandomString rnd1))
        (mqttCallback rnd2 topicCommands ((48 + u2) :: c2)
          (mqttCallback rnd1 topicCommands ((48 + u1) :: c1) s0).state).state).acts
      = [] := by
  rw [command_state_eq rnd1 s0 u1 c1 hu1 hc1]
  rw [command_state_eq rnd2 _ u2 c2 hu2 hc2]
  apply response_no_match
  rintro ⟨ha, hb⟩
  have ha' : ((48 + u1 : Nat) : Int) = (u2 : Int) + 48 := ha
  have hb' : djb2Modified (generateRandomString rnd1)
      = djb2Modified (generateRandomString rnd2) := hb
  exact hdiff ⟨by omega, hb'⟩

/-- C5 witness: user 1 then user 2; the late response to the first
challenge is dropped without actuation. -/
theorem superseded_challenge_rejected_witness :
    (mqttCallback (fun _ => 0) topicValidationResponses
        ((48 + 1) :: djb2Modified (generateRandomString (fun _ => 0)))
        (mqttCallback (fun _ => 1) topicCommands ((48 + 2) :: strBytes "unlock")
          (mqttCallback (fun _ => 0) topicCommands ((48 + 1) :: strBytes "lock")
            bootState).state).state).acts = [] :=
  superseded_challenge_rejected (fun _ => 0) (fun _ => 1) (fun _ => 0) bootState
    1 2 (strBytes "lock") (strBytes "unlock") (by decide) (by decide)
    (Or.inr rfl) (Or.inl rfl) (by decide)

/-- C5 counterexample: the nonces `"AAAAAAAB"` and `"AAAAAHJA"` are distinct
but share the digest `"6964"`.  User 1 issues `lock`, then (before any
response) `unlock`; the late response carrying the **first** challenge's
user digit and expected digest is not rejected — it matches the superseding
challenge and the actuator fires. -/
theorem superseded_collision_executes :
    generateRandomString (fun i => if i = 7 then 1 else 0)
      ≠ generateRandomString (fun i => if i = 5 then 7 else if i = 6 then 9 else 0) ∧
    djb2Modified (generateRandomString (fun i => if i = 7 then 1 else 0))
      = djb2Modified (generateRandomString (fun i => if i = 5 then 7 else if i = 6 then 9 else 0)) ∧
    (mqttCallback (fun _ => 0) topicValidationResponses
        ((48 + 1) :: djb2Modified (generateRandomString (fun i => if i = 7 then 1 else 0)))
        (mqttCallback (fun i => if i = 5 then 7 else if i = 6 then 9 else 0)
          topicCommands (strBytes "1unlock")
          (mqttCallback (fun i => if i = 7 then 1 else 0)
            topicCommands (strBytes "1lock") bootState).state).state).acts
      = [Act.unlock] := by
  decide

/-- C9: a well-formed command from user `u` draws an 8-character nonce over
`'A'..'Z'` and publishes exactly `<digit u><nonce>` (9 bytes). -/
theorem challenge_payload_shape (rnd : Nat → Nat) (s : LockState) (u : Nat) (c : Bytes)
    (hu : u ≤ 9) (hc : c = strBytes "unlock" ∨ c = strBytes "lock") :
    (mqttCallback rnd topicCommands ((48 + u) :: c) s).published
      = [(48 + u) :: generateRandomString rnd] ∧
    (generateRandomString rnd).length = 8 ∧
    (∀ b ∈ generateRandomString rnd, 65 ≤ b ∧ b ≤ 90) ∧
    ((48 + u) :: generateRandomString rnd).length = 9 := by
  refine ⟨by rw [command_step rnd s u c hu hc], ?_, ?_, ?_⟩
  · simp [generateRandomString]
  · intro b hb
    simp only [generateRandomString, List.mem_map, List.mem_range] at hb
    obtain ⟨i, _, rfl⟩ := hb
    have h26 : rnd i % 26 < 26 := Nat.mod_lt _ (by norm_num)
    omega
  · simp [generateRandomString]

/-- C9 witness: user 2, command `"unlock"`. -/
theorem challenge_payload_shape_witness :
    (mqttCallback (fun _ => 0) topicCommands ((48 + 2) :: strBytes "unlock")
        bootState).published
      = [(48 + 2) :: generateRandomString (fun _ => 0)] :=
  (challenge_payload_shape (fun _ => 0) bootState 2 (strBytes "unlock")
    (by decide) (Or.inl rfl)).1

/-- C10: in the boot-initial state (`lastCommand = ""`, `lastHash = ""`,
`userNumber = -1`) no validation response ever actuates the lock — even the
message `"/"`, whose first byte equals `userNumber + '0' = 47` and whose
remainder equals the empty stored hash, passes both comparisons yet falls
through to the unknown-command branch of `executeCommand`. -/
theorem boot_response_never_actuates (rnd : Nat → Nat) (msg : Bytes) :
    (mqttCallback rnd topicValidationResponses msg bootState).acts = [] ∧
    ((charAt (strBytes "/") 0 : Int) = bootState.userNumber + 48 ∧
      (strBytes "/").drop 1 = bootState.lastHash) := by
  constructor
  · rw [response_acts]
    split
    · show executeCommand bootState.lastCommand = []
      decide
    · rfl
  · decide
